import Mathlib

/-!
Shallow embedding of the WiThrottle protocol engine
(src/WiThrottleProtocol.cpp).

Modelling conventions:
* Arduino `String` values and C strings are modelled as `List Char`
  (abbreviated `Str`); reading a C string at an index just past its
  contents yields the NUL terminator, modelled by `charAt`.
* The transport stream and the console are modelled by effect lists:
  every `stream->println` becomes an entry of `Effects.sends`, and the
  console diagnostics that a property refers to become tagged entries of
  `Effects.logs` (purely informational `console` chatter is not modelled).
* Delegate callbacks become entries of `Effects.events`.
* The two `Chrono` timers (constructed with `Chrono::SECONDS`) are
  modelled by their elapsed whole seconds (`fastTimeElapsed`,
  `heartbeatElapsed`); `Chrono::hasPassed(t)` is `t ≤ elapsed` and
  `restart` resets the elapsed count to 0.  `Chrono::hasPassed` takes an
  `unsigned long`, so the C++ argument `0.5 * heartbeatPeriod` is
  truncated to `heartbeatPeriod / 2`.
* C `float`/`double` values (the fast clock and its rate) are modelled
  over `ℚ`; overflow of the C `long` in `atol` is not modelled.
-/

namespace WiThrottle

abbrev Str := List Char

/-- The literal `PROPERTY_SEPARATOR` string `<;>`. -/
def propSep : Str := ['<', ';', '>']

/-- Arduino `String::operator[]`/`charAt` and C-string indexing: an
out-of-range access yields the NUL character. -/
def charAt (s : Str) (i : Nat) : Char := s.getD i (Char.ofNat 0)

/-- C `isspace`, the predicate used by Arduino `String::trim`. -/
def isSpaceChar (c : Char) : Bool :=
  c == ' ' || c == '\t' || c == '\n' || c == '\x0b' || c == '\x0c' || c == '\r'

/-- Arduino `String::trim`: strip leading and trailing whitespace. -/
def trim (s : Str) : Str :=
  ((s.dropWhile isSpaceChar).reverse.dropWhile isSpaceChar).reverse

/-- Value of a digit string, most significant digit first. -/
def digitsVal (ds : Str) : Nat := ds.foldl (fun a c => a * 10 + (c.toNat - 48)) 0

/-- C `atol`, as called by Arduino `String::toInt`: skip leading
whitespace, optional sign, then the longest run of digits; yields 0 when
there are no digits. -/
def atol (s : Str) : Int :=
  let s1 := s.dropWhile isSpaceChar
  match s1 with
  | '-' :: r => -(digitsVal (r.takeWhile Char.isDigit) : Int)
  | '+' :: r => (digitsVal (r.takeWhile Char.isDigit) : Int)
  | _ => (digitsVal (s1.takeWhile Char.isDigit) : Int)

/-- Ten to an integer power, over `ℚ`. -/
def qpow10 (e : Int) : ℚ :=
  if 0 ≤ e then (10 : ℚ) ^ e.toNat else 1 / (10 : ℚ) ^ (-e).toNat

/-- Signed decimal exponent of a C float literal. -/
def expDigits (r : Str) : Int :=
  match r with
  | '-' :: d => -(digitsVal (d.takeWhile Char.isDigit) : Int)
  | '+' :: d => (digitsVal (d.takeWhile Char.isDigit) : Int)
  | _ => (digitsVal (r.takeWhile Char.isDigit) : Int)

/-- C `atof`, as called by Arduino `String::toFloat`, modelled over the
rationals: optional sign, integer part, optional fraction, optional
decimal exponent.  Only the fast-clock rate parse uses this. -/
def atofQ (s : Str) : ℚ :=
  let s1 := s.dropWhile isSpaceChar
  let signed : Bool × Str :=
    match s1 with
    | '-' :: r => (true, r)
    | '+' :: r => (false, r)
    | _ => (false, s1)
  let ip := signed.2.takeWhile Char.isDigit
  let s3 := signed.2.dropWhile Char.isDigit
  let fracRest : Str × Str :=
    match s3 with
    | '.' :: r => (r.takeWhile Char.isDigit, r.dropWhile Char.isDigit)
    | _ => ([], s3)
  let e : Int :=
    match fracRest.2 with
    | 'e' :: r => expDigits r
    | 'E' :: r => expDigits r
    | _ => 0
  let mant : ℚ :=
    (digitsVal ip : ℚ) + (digitsVal fracRest.1 : ℚ) / (10 : ℚ) ^ fracRest.1.length
  (if signed.1 then -mant else mant) * qpow10 e

/-- Arduino `String::startsWith`. -/
def strStartsWith : Str → Str → Bool
  | _, [] => true
  | [], _ :: _ => false
  | a :: s, p :: ps => a == p && strStartsWith s ps

/-- Arduino `String::indexOf` for a substring pattern, as an optional
index (the C++ call returns -1 exactly when this returns `none`). -/
def findSubstr (pat : Str) : Str → Option Nat
  | [] => if strStartsWith [] pat then some 0 else none
  | a :: rest =>
    if strStartsWith (a :: rest) pat then some 0
    else (findSubstr pat rest).map (fun n => n + 1)

/-- Decimal digit string of a natural number, with explicit fuel so the
recursion is structural (the fuel `n` is always at least the digit
count, so it is never exhausted). -/
def natToStrGo : Nat → Nat → Str
  | 0, n => [Char.ofNat (48 + n % 10)]
  | fuel + 1, n =>
    if n < 10 then [Char.ofNat (48 + n)]
    else natToStrGo fuel (n / 10) ++ [Char.ofNat (48 + n % 10)]

/-- Decimal digit string of a natural number. -/
def natToStr (n : Nat) : Str := natToStrGo n n

/-- Decimal representation of an `int`, as produced by `String(int)`. -/
def intToStr (i : Int) : Str :=
  if i < 0 then '-' :: natToStr (-i).toNat else natToStr i.toNat

/-- The noise marker `AT+CIPSENDBUF=` stripped by `processCommand`. -/
def noiseMarker : Str := "AT+CIPSENDBUF=".toList

theorem strStartsWith_length_le (s p : Str) (h : strStartsWith s p = true) :
    p.length ≤ s.length := by
  induction p generalizing s with
  | nil => simp
  | cons a ps ih =>
    cases s with
    | nil => simp [strStartsWith] at h
    | cons b s =>
      simp only [strStartsWith, Bool.and_eq_true] at h
      simpa using ih s h.2

/-- Loop body of the noise stripping in `processCommand`, with explicit
fuel so the recursion is structural: each iteration drops the 14-byte
marker, so fuel equal to the string length is never exhausted. -/
def stripNoiseGo : Nat → Str → Str
  | 0, c => c
  | fuel + 1, c =>
    if strStartsWith c noiseMarker then stripNoiseGo fuel (c.drop noiseMarker.length)
    else c

/-- The `while (strncmp(c, "AT+CIPSENDBUF=", 14) == 0)` loop of
`processCommand`: drop every leading occurrence of the noise marker.
The two console prints inside the loop are not modelled. -/
def stripNoise (c : Str) : Str := stripNoiseGo c.length c

/-- The `Direction` enum of the engine. -/
inductive Direction
  | Forward
  | Reverse
deriving DecidableEq

/-- The `TrackPower` enum of the engine. -/
inductive TrackPower
  | PowerUnknown
  | PowerOn
  | PowerOff
deriving DecidableEq

/-- Delegate callbacks, one constructor per `WiThrottleProtocolDelegate`
method invoked by the engine. -/
inductive Event
  | heartbeatConfig (period : Int)
  | receivedVersion (text : Str)
  | receivedWebPort (port : Int)
  | receivedFunctionState (funcNum : Nat) (state : Bool)
  | receivedSpeed (speed : Int)
  | receivedSpeedSteps (steps : Int)
  | receivedDirection (dir : Direction)
  | receivedTrackPower (power : TrackPower)
  | addressAdded (address entry : Str)
  | addressRemoved (address entry : Str)
  | addressStealNeeded (address entry : Str)
deriving DecidableEq

/-- Console diagnostics that some property refers to, as tags. -/
inductive LogMsg
  | lineTooLong
  | unknownCommand (c : Str)
  | unrecognizedAction (a : Char)
  | insufficientAction
  | malformedRemoval (entry : Str)
deriving DecidableEq

/-- Observable output of one engine operation: delegate events, console
diagnostics, and lines written to the stream (one entry per
`stream->println`). -/
structure Effects where
  events : List Event := []
  logs : List LogMsg := []
  sends : List Str := []
deriving DecidableEq

instance : Append Effects :=
  ⟨fun a b =>
    { events := a.events ++ b.events,
      logs := a.logs ++ b.logs,
      sends := a.sends ++ b.sends }⟩

/-- The engine state: session fields, fast-clock and heartbeat state,
the line accumulator (`inputbuffer`/`nextChar`, as the accumulated
line), the change flags, and the configuration fields (`server`,
whether a stream is connected, whether a delegate is attached). -/
structure ProtocolState where
  streamConnected : Bool
  hasDelegate : Bool
  server : Bool
  heartbeatPeriod : Int
  currentFastTime : ℚ
  currentFastTimeRate : ℚ
  locomotiveSelected : Bool
  currentAddress : Str
  currentSpeed : Int
  currentDirection : Direction
  clockChanged : Bool
  heartbeatChanged : Bool
  linebuf : Str
  fastTimeElapsed : Nat
  heartbeatElapsed : Nat
deriving DecidableEq

/-- A state with the post-`init()` defaults. -/
def baseState : ProtocolState :=
  { streamConnected := true
    hasDelegate := true
    server := false
    heartbeatPeriod := 0
    currentFastTime := 0
    currentFastTimeRate := 0
    locomotiveSelected := false
    currentAddress := []
    currentSpeed := 0
    currentDirection := Direction.Forward
    clockChanged := false
    heartbeatChanged := false
    linebuf := []
    fastTimeElapsed := 0
    heartbeatElapsed := 0 }

/-- The `sendCommand` method: writes the command line (and, in server
role, a following blank line) when a stream is connected. -/
def sendCommand (st : ProtocolState) (cmd : Str) : Effects :=
  if st.streamConnected then
    { sends := cmd :: (if st.server then [[]] else []) }
  else {}

/-- The `setCurrentFastTime` method: parse the string with `toInt` and
store it in `currentFastTime` (the surrounding console chatter is not
modelled). -/
def setCurrentFastTime (st : ProtocolState) (s : Str) : ProtocolState :=
  { st with currentFastTime := (atol s : ℚ) }

/-- The `processFastTime` method. -/
def processFastTime (st : ProtocolState) (c : Str) (_len : Nat) :
    Bool × ProtocolState × Effects :=
  match findSubstr propSep c with
  | some p =>
    if 0 < p then
      let st1 := setCurrentFastTime st (c.take p)
      ( true,
        { st1 with currentFastTimeRate := atofQ (c.drop (p + 3)), clockChanged := true },
        {} )
    else (true, setCurrentFastTime st c, {})
  | none => (true, setCurrentFastTime st c, {})

/-- The `processHeartbeat` method: store the parsed period; when it is
positive, set the change flag and notify the delegate. -/
def processHeartbeat (st : ProtocolState) (c : Str) (_len : Nat) :
    Bool × ProtocolState × Effects :=
  let period := atol c
  let st1 := { st with heartbeatPeriod := period }
  if 0 < period then
    ( true,
      { st1 with heartbeatChanged := true },
      if st1.hasDelegate then { events := [Event.heartbeatConfig period] } else {} )
  else (false, st1, {})

/-- The `processProtocolVersion` method. -/
def processProtocolVersion (st : ProtocolState) (c : Str) (len : Nat) : Effects :=
  if st.hasDelegate = true ∧ 0 < len then { events := [Event.receivedVersion c] }
  else {}

/-- The `processWebPort` method. -/
def processWebPort (st : ProtocolState) (c : Str) (len : Nat) : Effects :=
  if st.hasDelegate = true ∧ 0 < len then { events := [Event.receivedWebPort (atol c)] }
  else {}

/-- The `processFunctionState` method.  The parsed function number is
truncated to `uint8_t`; a result of 0 from text other than `"0"` marks
a parse failure and the event is suppressed. -/
def processFunctionState (st : ProtocolState) (functionData : Str) : Effects :=
  if st.hasDelegate = true ∧ 3 ≤ functionData.length then
    let state := charAt functionData 1 == '1'
    let funcNumStr := functionData.drop 2
    let funcNum : Nat := ((atol funcNumStr) % 256).toNat
    if funcNum = 0 ∧ funcNumStr ≠ ['0'] then {}
    else { events := [Event.receivedFunctionState funcNum state] }
  else {}

/-- The `processSpeed` method: parse the integer after `V` and clamp
values outside `MIN_SPEED`–`MAX_SPEED` (0–126) to 0. -/
def processSpeed (st : ProtocolState) (speedData : Str) : Effects :=
  if st.hasDelegate = true ∧ 2 ≤ speedData.length then
    let speed := atol (speedData.drop 1)
    let speed := if speed < 0 ∨ 126 < speed then 0 else speed
    { events := [Event.receivedSpeed speed] }
  else {}

/-- The `processSpeedSteps` method: only 1, 2, 4, 8, 16 are accepted. -/
def processSpeedSteps (st : ProtocolState) (speedStepData : Str) : Effects :=
  if st.hasDelegate = true ∧ 2 ≤ speedStepData.length then
    let steps := atol (speedStepData.drop 1)
    if steps ≠ 1 ∧ steps ≠ 2 ∧ steps ≠ 4 ∧ steps ≠ 8 ∧ steps ≠ 16 then {}
    else { events := [Event.receivedSpeedSteps steps] }
  else {}

/-- The `processDirection` method: requires length exactly 2; `0` means
Reverse, any other second character Forward; updates the cached
direction and notifies the delegate. -/
def processDirection (st : ProtocolState) (directionStr : Str) :
    ProtocolState × Effects :=
  if st.hasDelegate = true ∧ directionStr.length = 2 then
    let dir := if charAt directionStr 1 = '0' then Direction.Reverse else Direction.Forward
    ({ st with currentDirection := dir }, { events := [Event.receivedDirection dir] })
  else (st, {})

/-- The `processTrackPower` method. -/
def processTrackPower (st : ProtocolState) (c : Str) (len : Nat) : Effects :=
  if st.hasDelegate then
    if 0 < len then
      let state :=
        if charAt c 0 = '0' then TrackPower.PowerOff
        else if charAt c 0 = '1' then TrackPower.PowerOn
        else TrackPower.PowerUnknown
      { events := [Event.receivedTrackPower state] }
    else {}
  else {}

/-- The `processAddRemove` method: split the string (which still starts
with `+` or `-`) at the property separator, trim both fields, raise
`addressAdded` on `+`, and on `-` raise `addressRemoved` only when the
trimmed entry equals `"d\n"` or `"r\n"`, logging a malformed-removal
diagnostic otherwise. -/
def processAddRemove (st : ProtocolState) (c : Str) (_len : Nat) : Effects :=
  if st.hasDelegate = false then {}
  else
    let add := charAt c 0 = '+'
    let rem := charAt c 0 = '-'
    match findSubstr propSep c with
    | some p =>
      if 0 < p then
        let address := trim ((c.take p).drop 1)
        let entry := trim (c.drop (p + 3))
        let addPart : Effects :=
          if add then { events := [Event.addressAdded address entry] } else {}
        let remPart : Effects :=
          if rem then
            if entry = ['d', '\n'] ∨ entry = ['r', '\n'] then
              { events := [Event.addressRemoved address entry] }
            else { logs := [LogMsg.malformedRemoval entry] }
          else {}
        addPart ++ remPart
      else {}
    | none => {}

/-- The `processStealNeeded` method. -/
def processStealNeeded (st : ProtocolState) (c : Str) (_len : Nat) : Effects :=
  if st.hasDelegate = false then {}
  else
    match findSubstr propSep c with
    | some p =>
      if 0 < p then
        { events := [Event.addressStealNeeded (c.take p) (c.drop (p + 3))] }
      else {}
    | none => {}

/-- The `processLocomotiveAction` method.  The remainder (after the
`MTA` prefix) is skipped when no address is selected; a leading
`currentAddress<;>` or `*<;>` prefix is stripped when present; the first
character of what is left selects the sub-action.  Note that a remainder
starting with neither prefix is dispatched unstripped. -/
def processLocomotiveAction (st : ProtocolState) (c : Str) (_len : Nat) :
    Bool × ProtocolState × Effects :=
  if st.currentAddress = [] then (true, st, {})
  else
    let addrCheck := st.currentAddress ++ propSep
    let allCheck := '*' :: propSep
    let remainder :=
      if strStartsWith c addrCheck then c.drop addrCheck.length
      else if strStartsWith c allCheck then c.drop allCheck.length
      else c
    if 0 < remainder.length then
      match charAt remainder 0 with
      | 'F' => (true, st, processFunctionState st remainder)
      | 'V' => (true, st, processSpeed st remainder)
      | 's' => (true, st, processSpeedSteps st remainder)
      | 'R' =>
        let sd := processDirection st remainder
        (true, sd.1, sd.2)
      | a => (true, st, { logs := [LogMsg.unrecognizedAction a] })
    else (false, st, { logs := [LogMsg.insufficientAction] })

/-- The `processCommand` method: strip leading noise markers from the
string, then dispatch on fixed prefixes.  The length guards compare the
caller's `len` argument, which is not reduced by the stripping.  The
C++ function falls off its end (an unspecified return value) on the
`AT+` branch and on the unknown-command branch; both are modelled as
returning `false`. -/
def processCommand (st : ProtocolState) (c0 : Str) (len : Nat) :
    Bool × ProtocolState × Effects :=
  let c := stripNoise c0
  if 3 < len ∧ charAt c 0 = 'P' ∧ charAt c 1 = 'F' ∧ charAt c 2 = 'T' then
    processFastTime st (c.drop 3) (len - 3)
  else if 3 < len ∧ charAt c 0 = 'P' ∧ charAt c 1 = 'P' ∧ charAt c 2 = 'A' then
    (true, st, processTrackPower st (c.drop 3) (len - 3))
  else if 1 < len ∧ charAt c 0 = '*' then
    processHeartbeat st (c.drop 1) (len - 1)
  else if 2 < len ∧ charAt c 0 = 'V' ∧ charAt c 1 = 'N' then
    (true, st, processProtocolVersion st (c.drop 2) (len - 2))
  else if 2 < len ∧ charAt c 0 = 'P' ∧ charAt c 1 = 'W' then
    (true, st, processWebPort st (c.drop 2) (len - 2))
  else if 6 < len ∧ charAt c 0 = 'M' ∧ charAt c 1 = 'T' ∧ charAt c 2 = 'S' then
    (true, st, processStealNeeded st (c.drop 3) (len - 3))
  else if 6 < len ∧ charAt c 0 = 'M' ∧ charAt c 1 = 'T' ∧
      (charAt c 2 = '+' ∨ charAt c 2 = '-') then
    (true, st, processAddRemove st (c.drop 2) (len - 2))
  else if 8 < len ∧ charAt c 0 = 'M' ∧ charAt c 1 = 'T' ∧ charAt c 2 = 'A' then
    processLocomotiveAction st (c.drop 3) (len - 3)
  else if 3 < len ∧ charAt c 0 = 'A' ∧ charAt c 1 = 'T' ∧ charAt c 2 = '+' then
    (false, st, {})
  else
    (false, st, { logs := [LogMsg.unknownCommand c] })

/-- The `checkFastTime` method.  Faithful to the source: the local
`changed` result is initialised to `true` and never modified, so the
method reports a change on every poll regardless of the timer. -/
def checkFastTime (st : ProtocolState) : Bool × ProtocolState :=
  let changed := true
  if 1 ≤ st.fastTimeElapsed then
    let st1 := { st with fastTimeElapsed := 0 }
    if st1.currentFastTimeRate = 0 then
      (changed, { st1 with clockChanged := false })
    else
      (changed,
       { st1 with
           currentFastTime := st1.currentFastTime + st1.currentFastTimeRate,
           clockChanged := true })
  else (changed, st)

/-- The `checkHeartbeat` method: when the period is positive and at
least `heartbeatPeriod / 2` whole seconds have elapsed (the `0.5 *
heartbeatPeriod` double is truncated by `Chrono::hasPassed(unsigned
long)`), restart the timer and send a bare `*` line. -/
def checkHeartbeat (st : ProtocolState) : Bool × ProtocolState × Effects :=
  if 0 < st.heartbeatPeriod ∧ st.heartbeatPeriod.toNat / 2 ≤ st.heartbeatElapsed then
    (true, { st with heartbeatElapsed := 0 }, sendCommand st ['*'])
  else (false, st, {})

/-- One byte of the framing loop inside `check`: given the accumulated
line (`inputbuffer[0..nextChar)`) and the byte read, produce the new
accumulator, the completed line if one was finished, the buffer indices
written by this byte (`inputbuffer[nextChar] = b`, and the NUL stores at
`nextChar` and at 1023), and whether the 1023-byte overflow reset
fired. -/
def framerStep (acc : Str) (b : Char) : Str × Option Str × List Nat × Bool :=
  if b = '\n' ∨ b = '\r' then
    if acc.length ≠ 0 then ([], some acc, [acc.length], false)
    else ([], none, [], false)
  else
    let acc2 := acc ++ [b]
    if acc2.length = 1023 then ([], none, [acc.length, 1023], true)
    else (acc2, none, [acc.length], false)

/-- The framing loop run over a byte list: final accumulator, completed
lines in order, and every buffer index written. -/
def framerRun (acc : Str) : List Char → Str × List Str × List Nat
  | [] => (acc, [], [])
  | b :: rest =>
    let step := framerStep acc b
    let tail := framerRun step.1 rest
    (tail.1, step.2.1.toList ++ tail.2.1, step.2.2.1 ++ tail.2.2)

/-- The `while (stream->available())` loop of `check`: run the framer
byte by byte, handing each completed line to `processCommand` (with
`len = nextChar`) and OR-ing the reported changes. -/
def checkLoop (st : ProtocolState) (changed : Bool) (eff : Effects) :
    List Char → Bool × ProtocolState × Effects
  | [] => (changed, st, eff)
  | b :: rest =>
    let step := framerStep st.linebuf b
    let st1 := { st with linebuf := step.1 }
    match step.2.1 with
    | some line =>
      let r := processCommand st1 line line.length
      checkLoop r.2.1 (changed || r.1) (eff ++ r.2.2) rest
    | none =>
      let e : Effects := if step.2.2.2 then { logs := [LogMsg.lineTooLong] } else {}
      checkLoop st1 changed (eff ++ e) rest

/-- The `check` method, one poll: reset the change flags; when a stream
is connected, run the fast-time and heartbeat timers and then drain the
available bytes (`avail`) through the framing loop; with no stream,
return `false`. -/
def check (st0 : ProtocolState) (avail : List Char) : Bool × ProtocolState × Effects :=
  let st := { st0 with clockChanged := false, heartbeatChanged := false }
  if st.streamConnected then
    let ft := checkFastTime st
    let hb := checkHeartbeat ft.2
    checkLoop hb.2.1 (ft.1 || hb.1) hb.2.2 avail
  else (false, st, {})

/-- The `setDeviceName` method. -/
def setDeviceName (st : ProtocolState) (deviceName : Str) : Effects :=
  sendCommand st ('N' :: deviceName)

/-- The `setDeviceID` method. -/
def setDeviceID (st : ProtocolState) (deviceId : Str) : Effects :=
  sendCommand st ('H' :: deviceId)

/-- The `requireHeartbeat` method. -/
def requireHeartbeat (st : ProtocolState) (needed : Bool) : Effects :=
  if needed then sendCommand st ['*', '+'] else sendCommand st ['*', '-']

/-- The `addLocomotive` method: valid only when the first character of
the address is `S` or `L`; sends `MT+address<;>address` and records the
selection. -/
def addLocomotive (st : ProtocolState) (address : Str) :
    Bool × ProtocolState × Effects :=
  if charAt address 0 = 'S' ∨ charAt address 0 = 'L' then
    let rosterName := address
    let cmd := "MT+".toList ++ address ++ propSep ++ rosterName
    ( true,
      { st with currentAddress := address, locomotiveSelected := true },
      sendCommand st cmd )
  else (false, st, {})

/-- The `releaseLocomotive` method: always sends `MT-address<;>r` and
clears the selected flag (the cached address is left as is). -/
def releaseLocomotive (st : ProtocolState) (address : Str) :
    Bool × ProtocolState × Effects :=
  ( true,
    { st with locomotiveSelected := false },
    sendCommand st ("MT-".toList ++ address ++ propSep ++ ['r']) )

/-- The `stealLocomotive` method: release, then re-add. -/
def stealLocomotive (st : ProtocolState) (address : Str) :
    Bool × ProtocolState × Effects :=
  let r := releaseLocomotive st address
  if r.1 then
    let a := addLocomotive r.2.1 address
    (a.1, a.2.1, r.2.2 ++ a.2.2)
  else (false, r.2.1, r.2.2)

/-- The `setSpeed` method: reject speeds outside 0–126 and calls with no
selection; send `MTA*<;>V<speed>` only when the speed differs from the
cached one, then update the cache. -/
def setSpeed (st : ProtocolState) (speed : Int) : Bool × ProtocolState × Effects :=
  if speed < 0 ∨ 126 < speed then (false, st, {})
  else if st.locomotiveSelected = false then (false, st, {})
  else if speed ≠ st.currentSpeed then
    ( true,
      { st with currentSpeed := speed },
      sendCommand st ("MTA*".toList ++ propSep ++ 'V' :: intToStr speed) )
  else (true, st, {})

/-- The `setDirection` method. -/
def setDirection (st : ProtocolState) (direction : Direction) :
    Bool × ProtocolState × Effects :=
  if st.locomotiveSelected = false then (false, st, {})
  else
    let cmd := "MTA*".toList ++ propSep ++
      'R' :: (if direction = Direction.Reverse then ['0'] else ['1'])
    (true, { st with currentDirection := direction }, sendCommand st cmd)

/-- The `emergencyStop` method. -/
def emergencyStop (st : ProtocolState) : Effects :=
  sendCommand st ("MTA*".toList ++ propSep ++ ['X'])

/-- The `setFunction` method. -/
def setFunction (st : ProtocolState) (funcNum : Int) (pressed : Bool) : Effects :=
  if st.locomotiveSelected = false then {}
  else if funcNum < 0 ∨ 28 < funcNum then {}
  else
    sendCommand st ("MTA".toList ++ st.currentAddress ++ propSep ++
      'F' :: (if pressed then ['1'] else ['0']) ++ intToStr funcNum)

@[simp]
theorem Effects.append_events (a b : Effects) : (a ++ b).events = a.events ++ b.events := rfl

@[simp]
theorem Effects.append_logs (a b : Effects) : (a ++ b).logs = a.logs ++ b.logs := rfl

@[simp]
theorem Effects.append_sends (a b : Effects) : (a ++ b).sends = a.sends ++ b.sends := rfl

/-- A state with a locomotive selected under address `S1`. -/
def selectedS1 : ProtocolState :=
  { baseState with currentAddress := ['S', '1'], locomotiveSelected := true }

/-- A concrete line carrying the noise marker in front of a locomotive
action. -/
def noisyLine : Str := "AT+CIPSENDBUF=MTAV12".toList

/-- C1: the claim says a poll with no available bytes, no heartbeat
fire, and a fast-clock timer that does not fire (or fires with rate 0)
returns `false`.  The code disagrees: `checkFastTime` initialises its
result to `true` and never updates it, so such a poll reports a change.
Both the not-yet-due-timer poll and the due-timer-with-rate-0 poll
return `true` on the default connected state. -/
theorem check_quiet_poll_returns_true :
    baseState.heartbeatPeriod = 0 ∧ baseState.currentFastTimeRate = 0 ∧
    (check baseState []).1 = true ∧
    (check { baseState with fastTimeElapsed := 1 } []).1 = true := by
  decide

/-- C4: `setSpeed` returns `false`, sends nothing and leaves the state
untouched for any speed outside 0–126 and for any call with no
locomotive selected; for an in-range speed with a selection it returns
`true` and the cached `currentSpeed` becomes that speed. -/
theorem setSpeed_validation (st : ProtocolState) (v : Int) :
    ((v < 0 ∨ 126 < v) → setSpeed st v = (false, st, {})) ∧
    (st.locomotiveSelected = false → setSpeed st v = (false, st, {})) ∧
    (0 ≤ v → v ≤ 126 → st.locomotiveSelected = true →
      (setSpeed st v).1 = true ∧ (setSpeed st v).2.1.currentSpeed = v) := by
  refine ⟨fun h => ?_, fun h => ?_, fun h0 h1 hsel => ?_⟩
  · simp only [setSpeed, if_pos h]
  · by_cases hr : v < 0 ∨ 126 < v
    · simp only [setSpeed, if_pos hr]
    · simp [setSpeed, hr, h]
  · have hr : ¬ (v < 0 ∨ 126 < v) := by omega
    by_cases hne : v ≠ st.currentSpeed
    · simp [setSpeed, hr, hsel, hne]
    · push_neg at hne
      subst hne
      simp [setSpeed, hr, hsel]

/-- C4 witness: concrete rejections at -1 and 127 and concrete successes
at 0 and 126. -/
theorem setSpeed_validation_witness :
    setSpeed selectedS1 (-1) = (false, selectedS1, {}) ∧
    setSpeed selectedS1 127 = (false, selectedS1, {}) ∧
    (setSpeed selectedS1 126).1 = true ∧
    (setSpeed selectedS1 126).2.1.currentSpeed = 126 := by
  refine ⟨(setSpeed_validation selectedS1 (-1)).1 (by decide), ?_, ?_⟩
  · exact (setSpeed_validation selectedS1 127).1 (by decide)
  · exact (setSpeed_validation selectedS1 126).2.2 (by decide) (by decide) (by decide)

/-- C9: when a stream is connected (client role) and an in-range speed
differing from the cache is set, exactly one line is written; repeating
the same call on the resulting state succeeds with no write and no state
change, so repeated identical calls write nothing. -/
theorem setSpeed_write_idempotent (st : ProtocolState) (v : Int)
    (hconn : st.streamConnected = true) (hsrv : st.server = false)
    (hsel : st.locomotiveSelected = true) (h0 : 0 ≤ v) (h1 : v ≤ 126)
    (hne : v ≠ st.currentSpeed) :
    (setSpeed st v).1 = true ∧
    (setSpeed st v).2.2.sends.length = 1 ∧
    setSpeed (setSpeed st v).2.1 v = (true, (setSpeed st v).2.1, {}) := by
  have hr : ¬ (v < 0 ∨ 126 < v) := by omega
  simp [setSpeed, hr, hsel, hne, sendCommand, hconn, hsrv]

/-- C9 witness: setting speed 50 from the selected default state writes
once; the repeated call writes nothing. -/
theorem setSpeed_write_idempotent_witness :
    (setSpeed selectedS1 50).1 = true ∧
    (setSpeed selectedS1 50).2.2.sends.length = 1 ∧
    setSpeed (setSpeed selectedS1 50).2.1 50 =
      (true, (setSpeed selectedS1 50).2.1, {}) :=
  setSpeed_write_idempotent selectedS1 50 rfl rfl rfl (by decide) (by decide) (by decide)

/-- C6: `addLocomotive` succeeds exactly when the first character of the
address is `S` or `L`; on success it sends the `MT+` selection command
and records the selection, and on failure it returns `false` with no
send and no state change. -/
theorem addLocomotive_address_validation (st : ProtocolState) (address : Str) :
    ((charAt address 0 = 'S' ∨ charAt address 0 = 'L') →
      (addLocomotive st address).1 = true ∧
      (addLocomotive st address).2.1 =
        { st with currentAddress := address, locomotiveSelected := true } ∧
      (st.streamConnected = true →
        (addLocomotive st address).2.2.sends.head? =
          some ("MT+".toList ++ address ++ propSep ++ address))) ∧
    ((charAt address 0 ≠ 'S' ∧ charAt address 0 ≠ 'L') →
      addLocomotive st address = (false, st, {})) := by
  constructor
  · intro h
    refine ⟨?_, ?_, ?_⟩ <;> simp [addLocomotive, h, sendCommand]
    intro hconn
    simp [hconn]
  · intro h
    simp [addLocomotive, h.1, h.2]

/-- C6 witness: `S123` is accepted and selected, `X123` is rejected with
no state change. -/
theorem addLocomotive_address_validation_witness :
    ((addLocomotive baseState ("S123".toList)).1 = true ∧
      (addLocomotive baseState ("S123".toList)).2.1 =
        { baseState with
            currentAddress := "S123".toList, locomotiveSelected := true } ∧
      (addLocomotive baseState ("S123".toList)).2.2.sends.head? =
        some ("MT+".toList ++ "S123".toList ++ propSep ++ "S123".toList)) ∧
    addLocomotive baseState ("X123".toList) = (false, baseState, {}) := by
  have h1 := (addLocomotive_address_validation baseState ("S123".toList)).1 (by decide)
  have h2 := (addLocomotive_address_validation baseState ("X123".toList)).2 (by decide)
  exact ⟨⟨h1.1, h1.2.1, h1.2.2 rfl⟩, h2⟩

/-- C5: with a delegate and a body of length at least 2, `processSpeed`
raises exactly one `receivedSpeed` event carrying the parsed integer
when it lies in 0–126 and 0 otherwise; in particular the full dispatch
of `MTA*<;>V200` on a selected session yields `receivedSpeed 0`. -/
theorem processSpeed_clamps_out_of_range (st : ProtocolState) (speedData : Str)
    (hd : st.hasDelegate = true) (hl : 2 ≤ speedData.length) :
    (processSpeed st speedData).events =
      [Event.receivedSpeed
        (if atol (speedData.drop 1) < 0 ∨ 126 < atol (speedData.drop 1) then 0
         else atol (speedData.drop 1))] ∧
    (processCommand selectedS1 ("MTA*<;>V200".toList)
        ("MTA*<;>V200".toList).length).2.2.events = [Event.receivedSpeed 0] := by
  constructor
  · simp [processSpeed, hd, hl]
  · decide

/-- C5 witness: the body `V200` parses to 200, which is clamped to 0. -/
theorem processSpeed_clamps_out_of_range_witness :
    (processSpeed selectedS1 ("V200".toList)).events = [Event.receivedSpeed 0] := by
  have h := (processSpeed_clamps_out_of_range selectedS1 ("V200".toList) rfl
    (by decide)).1
  rw [h]
  decide

/-- C10: the dispatcher's length guards compare the original line
length, not the length after noise stripping: the line
`AT+CIPSENDBUF=MTAV12` (length 20) strips to `MTAV12` (length 6, below
the `MTA` rule's threshold of more than 8) yet is dispatched as a
locomotive action and raises `receivedSpeed 12`, while the same six
characters arriving as their own line are not dispatched at all. -/
theorem processCommand_uses_original_length :
    (stripNoise noisyLine).length = 6 ∧
    (processCommand selectedS1 noisyLine noisyLine.length).2.2.events =
      [Event.receivedSpeed 12] ∧
    (processCommand selectedS1 (stripNoise noisyLine)
        (stripNoise noisyLine).length).2.2 =
      { logs := [LogMsg.unknownCommand ("MTAV12".toList)] } := by
  decide

/-- C3: with `heartbeatPeriod = 0` the timer sends nothing and changes
nothing; with a positive period `p` nothing is sent while fewer than
`p / 2` seconds (integer division, matching the truncation of `0.5 * p`
by `Chrono::hasPassed(unsigned long)`) have elapsed since the timer's
reference point, and once at least `p / 2` seconds have elapsed exactly
one bare `*` line is sent and the elapsed reference restarts at 0. -/
theorem checkHeartbeat_period_window (st : ProtocolState) :
    (st.heartbeatPeriod = 0 → checkHeartbeat st = (false, st, {})) ∧
    (0 < st.heartbeatPeriod →
      (st.heartbeatElapsed < st.heartbeatPeriod.toNat / 2 →
        checkHeartbeat st = (false, st, {})) ∧
      (st.heartbeatPeriod.toNat / 2 ≤ st.heartbeatElapsed →
        (checkHeartbeat st).1 = true ∧
        (checkHeartbeat st).2.1 = { st with heartbeatElapsed := 0 } ∧
        (st.streamConnected = true →
          (checkHeartbeat st).2.2.sends.count ['*'] = 1 ∧
          ∀ l ∈ (checkHeartbeat st).2.2.sends, l = ['*'] ∨ l = []))) := by
  refine ⟨fun h0 => ?_, fun hp => ⟨fun hlt => ?_, fun hge => ?_⟩⟩
  · simp [checkHeartbeat, h0]
  · have hc : ¬ (0 < st.heartbeatPeriod ∧
        st.heartbeatPeriod.toNat / 2 ≤ st.heartbeatElapsed) := by omega
    simp [checkHeartbeat, hc]
  · have hc : 0 < st.heartbeatPeriod ∧
        st.heartbeatPeriod.toNat / 2 ≤ st.heartbeatElapsed := ⟨hp, hge⟩
    refine ⟨by simp [checkHeartbeat, hc], by simp [checkHeartbeat, hc], fun hconn => ?_⟩
    cases hs : st.server <;>
      simp [checkHeartbeat, hc, sendCommand, hconn, hs, List.count_cons]

/-- C3 witness: with period 10, no line is sent at 4 elapsed seconds and
exactly one `*` line is sent at 5 elapsed seconds, restarting the
reference. -/
theorem checkHeartbeat_period_window_witness :
    (checkHeartbeat { baseState with heartbeatPeriod := 10, heartbeatElapsed := 4 } =
      (false, { baseState with heartbeatPeriod := 10, heartbeatElapsed := 4 }, {})) ∧
    (checkHeartbeat { baseState with heartbeatPeriod := 10, heartbeatElapsed := 5 }).1 =
      true ∧
    (checkHeartbeat { baseState with heartbeatPeriod := 10, heartbeatElapsed := 5 }).2.1 =
      { baseState with heartbeatPeriod := 10, heartbeatElapsed := 0 } ∧
    (checkHeartbeat
        { baseState with heartbeatPeriod := 10, heartbeatElapsed := 5 }).2.2.sends.count
      ['*'] = 1 := by
  have h4 := (checkHeartbeat_period_window
    { baseState with heartbeatPeriod := 10, heartbeatElapsed := 4 }).2 (by decide)
  have h5 := (checkHeartbeat_period_window
    { baseState with heartbeatPeriod := 10, heartbeatElapsed := 5 }).2 (by decide)
  exact ⟨h4.1 (by decide), (h5.2 (by decide)).1, (h5.2 (by decide)).2.1,
    ((h5.2 (by decide)).2.2 rfl).1⟩

theorem mem_of_mem_trim (a : Char) (s : Str) (h : a ∈ trim s) : a ∈ s := by
  unfold trim at h
  rw [List.mem_reverse] at h
  have h1 := (List.dropWhile_sublist _).subset h
  rw [List.mem_reverse] at h1
  exact (List.dropWhile_sublist _).subset h1

/-- C2: for an inbound remove-locomotive payload (no terminator
characters can occur inside a framed line), with a delegate attached and
the property separator present at a positive index, the trimmed entry
can never equal `"d\n"` or `"r\n"`, so the `addressRemoved` event is
raised exactly under the claim's condition — never — and the line is
logged as a malformed removal with no event delivered. -/
theorem processAddRemove_remove_entry_iff (st : ProtocolState) (c : Str) (p : Nat)
    (hd : st.hasDelegate = true)
    (hline : ∀ ch ∈ c, ch ≠ '\n' ∧ ch ≠ '\r')
    (hminus : charAt c 0 = '-')
    (hfind : findSubstr propSep c = some p) (hp : 0 < p) :
    ((∃ a e, Event.addressRemoved a e ∈ (processAddRemove st c c.length).events) ↔
      (trim (c.drop (p + 3)) = ['d', '\n'] ∨ trim (c.drop (p + 3)) = ['r', '\n'])) ∧
    (processAddRemove st c c.length).events = [] ∧
    (processAddRemove st c c.length).logs =
      [LogMsg.malformedRemoval (trim (c.drop (p + 3)))] := by
  have hn : ('\n' : Char) ∉ trim (c.drop (p + 3)) := by
    intro hmem
    exact (hline _ (List.mem_of_mem_drop (mem_of_mem_trim _ _ hmem))).1 rfl
  have hne1 : trim (c.drop (p + 3)) ≠ ['d', '\n'] := by
    intro he; rw [he] at hn; simp at hn
  have hne2 : trim (c.drop (p + 3)) ≠ ['r', '\n'] := by
    intro he; rw [he] at hn; simp at hn
  have hplus : ¬ (charAt c 0 = '+') := by rw [hminus]; decide
  refine ⟨?_, ?_, ?_⟩ <;>
    simp [processAddRemove, hd, hfind, hp, hminus, hplus, hne1, hne2]

/-- C2 witness: the framed line `MT-S1<;>r` (payload `-S1<;>r`) has a
trimmed entry `r`, which is neither `"d\n"` nor `"r\n"`; no event is
delivered and the malformed-removal diagnostic is emitted. -/
theorem processAddRemove_remove_entry_iff_witness :
    (processAddRemove baseState ("-S1<;>r".toList) ("-S1<;>r".toList).length).events =
      [] ∧
    (processAddRemove baseState ("-S1<;>r".toList) ("-S1<;>r".toList).length).logs =
      [LogMsg.malformedRemoval ['r']] := by
  have h := processAddRemove_remove_entry_iff baseState ("-S1<;>r".toList) 3 rfl
    (by decide) (by decide) (by decide) (by decide)
  refine ⟨h.2.1, ?_⟩
  rw [h.2.2]
  decide

/-- C8 counterexample: with address `S1` selected, the `MTA` remainder
`V12345` begins with neither `S1<;>` nor `*<;>`, yet the line
`MTAV12345` raises a `receivedSpeed` sub-action event, contradicting the
claim that such a remainder produces no sub-action event. -/
theorem processLocomotiveAction_unstripped_counterexample :
    strStartsWith ("V12345".toList) (selectedS1.currentAddress ++ propSep) = false ∧
    strStartsWith ("V12345".toList) ('*' :: propSep) = false ∧
    (processCommand selectedS1 ("MTAV12345".toList)
        ("MTAV12345".toList).length).2.2.events = [Event.receivedSpeed 0] := by
  decide

theorem strStartsWith_append (p t : Str) : strStartsWith (p ++ t) p = true := by
  induction p with
  | nil => cases t <;> rfl
  | cons a ps ih => simp [strStartsWith, ih]

/-- C8 (amended): with a locomotive selected, a remainder beginning with
`currentAddress<;>` or `*<;>` has that prefix stripped before sub-action
dispatch (the two prefixes are interchangeable), but a remainder
beginning with neither prefix is not rejected: it is dispatched
unstripped, reporting an action present and, for example, raising the
speed sub-action when its first character is `V`. -/
theorem processLocomotiveAction_remainder_dispatch (st : ProtocolState)
    (c t : Str) (len len2 len3 : Nat) (ha : st.currentAddress ≠ []) :
    ((strStartsWith c (st.currentAddress ++ propSep) = false ∧
      strStartsWith c ('*' :: propSep) = false ∧ c ≠ []) →
      ((processLocomotiveAction st c len).1 = true ∧
       (charAt c 0 = 'V' →
         (processLocomotiveAction st c len).2.2 = processSpeed st c))) ∧
    (charAt st.currentAddress 0 ≠ '*' →
      processLocomotiveAction st ((st.currentAddress ++ propSep) ++ t) len2 =
        processLocomotiveAction st (('*' :: propSep) ++ t) len3) := by
  constructor
  · rintro ⟨h1, h2, hc⟩
    have hlen : 0 < c.length := List.length_pos.mpr hc
    simp only [processLocomotiveAction, ha, if_neg ha, h1, h2, Bool.false_eq_true,
      if_false, if_pos hlen]
    refine ⟨?_, fun hV => ?_⟩
    · split <;> rfl
    · rw [hV]
      rfl
  · intro hstar
    obtain ⟨a, as, hA⟩ : ∃ a as, st.currentAddress = a :: as := by
      cases hA : st.currentAddress with
      | nil => exact absurd hA ha
      | cons a as => exact ⟨a, as, rfl⟩
    have hane : ('*' : Char) ≠ a := by
      rw [hA] at hstar
      simp only [charAt, List.getD_cons_zero] at hstar
      exact fun h => hstar h.symm
    have h1 : strStartsWith ((st.currentAddress ++ propSep) ++ t)
        (st.currentAddress ++ propSep) = true := strStartsWith_append _ _
    have h2 : strStartsWith (('*' :: propSep) ++ t)
        (st.currentAddress ++ propSep) = false := by
      rw [hA]
      simp [strStartsWith, hane]
    have h3 : strStartsWith (('*' :: propSep) ++ t) ('*' :: propSep) = true :=
      strStartsWith_append _ _
    simp only [processLocomotiveAction, if_neg ha, h1, h2, h3, Bool.false_eq_true,
      if_true, if_false, List.drop_left]

/-- C8 (amended) witness: for address `S1`, the unprefixed remainder
`V12345` is dispatched as a speed sub-action, and the `S1<;>`-prefixed
and `*<;>`-prefixed remainders `V10` are processed identically. -/
theorem processLocomotiveAction_remainder_dispatch_witness :
    ((processLocomotiveAction selectedS1 ("V12345".toList) 6).1 = true ∧
      (processLocomotiveAction selectedS1 ("V12345".toList) 6).2.2 =
        processSpeed selectedS1 ("V12345".toList)) ∧
    processLocomotiveAction selectedS1 ("S1<;>V10".toList) 8 =
      processLocomotiveAction selectedS1 ("*<;>V10".toList) 7 := by
  have h := processLocomotiveAction_remainder_dispatch selectedS1 ("V12345".toList)
    ("V10".toList) 6 8 7 (by decide)
  have h1 := h.1 ⟨by decide, by decide, by decide⟩
  exact ⟨⟨h1.1, h1.2 (by decide)⟩, h.2 (by decide)⟩

theorem framerRun_bound (bytes : List Char) (acc : Str) (hacc : acc.length ≤ 1022) :
    (framerRun acc bytes).1.length ≤ 1022 ∧
    ∀ i ∈ (framerRun acc bytes).2.2, i ≤ 1023 := by
  induction bytes generalizing acc with
  | nil => simpa [framerRun] using hacc
  | cons b rest ih =>
    simp only [framerRun]
    by_cases hb : b = '\n' ∨ b = '\r'
    · by_cases hz : acc.length ≠ 0
      · obtain ⟨g1, g2⟩ := ih [] (by simp)
        refine ⟨by simpa [framerStep, hb, hz] using g1, ?_⟩
        intro i hi
        simp [framerStep, hb, hz] at hi
        rcases hi with h | h
        · omega
        · exact g2 i h
      · obtain ⟨g1, g2⟩ := ih [] (by simp)
        refine ⟨by simpa [framerStep, hb, hz] using g1, ?_⟩
        intro i hi
        simp [framerStep, hb, hz] at hi
        exact g2 i hi
    · by_cases hc : acc.length = 1022
      · obtain ⟨g1, g2⟩ := ih [] (by simp)
        refine ⟨by simpa [framerStep, hb, hc] using g1, ?_⟩
        intro i hi
        simp [framerStep, hb, hc] at hi
        rcases hi with h | h | h
        · omega
        · omega
        · exact g2 i h
      · have hlen : (acc ++ [b]).length ≤ 1022 := by
          simp
          omega
        obtain ⟨g1, g2⟩ := ih (acc ++ [b]) hlen
        refine ⟨by simpa [framerStep, hb, hc] using g1, ?_⟩
        intro i hi
        simp [framerStep, hb, hc] at hi
        rcases hi with h | h
        · omega
        · exact g2 i h

theorem framerRun_append (xs ys : List Char) (acc : Str) :
    framerRun acc (xs ++ ys) =
      ((framerRun (framerRun acc xs).1 ys).1,
       (framerRun acc xs).2.1 ++ (framerRun (framerRun acc xs).1 ys).2.1,
       (framerRun acc xs).2.2 ++ (framerRun (framerRun acc xs).1 ys).2.2) := by
  induction xs generalizing acc with
  | nil => simp [framerRun]
  | cons b rest ih =>
    simp only [List.cons_append, framerRun, List.append_eq]
    rw [ih]
    simp [List.append_assoc]

theorem framerRun_fill (payload : List Char) (acc : Str)
    (hnt : ∀ ch ∈ payload, ch ≠ '\n' ∧ ch ≠ '\r')
    (hlen : acc.length + payload.length ≤ 1022) :
    (framerRun acc payload).1 = acc ++ payload ∧
    (framerRun acc payload).2.1 = [] := by
  induction payload generalizing acc with
  | nil => simp [framerRun]
  | cons b rest ih =>
    have hb : ¬ (b = '\n' ∨ b = '\r') := by
      have := hnt b (by simp)
      tauto
    have hc : acc.length ≠ 1022 := by
      simp at hlen
      omega
    obtain ⟨g1, g2⟩ := ih (acc ++ [b]) (fun ch hch => hnt ch (by simp [hch]))
      (by simp at hlen ⊢; omega)
    constructor
    · simp [framerRun, framerStep, hb, hc, g1]
    · simp [framerRun, framerStep, hb, hc, g2]

theorem framerRun_line (line : Str) (hl0 : line ≠ []) (hllen : line.length ≤ 1022)
    (hnt : ∀ ch ∈ line, ch ≠ '\n' ∧ ch ≠ '\r') :
    (framerRun [] (line ++ ['\n'])).2.1 = [line] := by
  obtain ⟨g1, g2⟩ := framerRun_fill line [] hnt (by simpa using hllen)
  have hz : line.length ≠ 0 := by
    simpa [List.length_eq_zero] using hl0
  rw [framerRun_append]
  simp [g1, g2, framerRun, framerStep, hz]

/-- C7: the framing loop is memory safe and recovers from overflow: from
any reachable accumulator (at most 1022 bytes), the accumulator stays
within 1022 bytes after any input and every buffer index written stays
at or below 1023 (inside the 1024-byte `inputbuffer`); and a 1023-byte
terminator-free line is discarded by the overflow reset after which the
next terminator-delimited line is framed intact. -/
theorem framer_safe_and_recovers (bytes : List Char) (acc : Str)
    (hacc : acc.length ≤ 1022) (junk line : Str)
    (hjlen : junk.length = 1023)
    (hjnt : ∀ ch ∈ junk, ch ≠ '\n' ∧ ch ≠ '\r')
    (hl0 : line ≠ []) (hllen : line.length ≤ 1022)
    (hlnt : ∀ ch ∈ line, ch ≠ '\n' ∧ ch ≠ '\r') :
    (framerRun acc bytes).1.length ≤ 1022 ∧
    (∀ i ∈ (framerRun acc bytes).2.2, i ≤ 1023) ∧
    (framerRun [] (junk ++ '\n' :: (line ++ ['\n']))).2.1 = [line] := by
  obtain ⟨b1, b2⟩ := framerRun_bound bytes acc hacc
  refine ⟨b1, b2, ?_⟩
  obtain ⟨d, hd⟩ : ∃ d, junk.drop 1022 = [d] :=
    List.length_eq_one.mp (by rw [List.length_drop, hjlen])
  have hsplit : junk = junk.take 1022 ++ [d] := by
    rw [← hd]
    exact (List.take_append_drop 1022 junk).symm
  have hj1len : (junk.take 1022).length = 1022 := by
    rw [List.length_take, hjlen]
    omega
  have hj1nt : ∀ ch ∈ junk.take 1022, ch ≠ '\n' ∧ ch ≠ '\r' :=
    fun ch hch => hjnt ch ((List.take_sublist _ _).subset hch)
  have hdnt : d ≠ '\n' ∧ d ≠ '\r' := by
    refine hjnt d ?_
    rw [hsplit]
    simp
  have hdb : ¬ (d = '\n' ∨ d = '\r') := by tauto
  obtain ⟨g1, g2⟩ := framerRun_fill (junk.take 1022) [] hj1nt (by rw [hj1len]; simp)
  have g1' : (framerRun [] (junk.take 1022)).1 = junk.take 1022 := by simpa using g1
  have hline := framerRun_line line hl0 hllen hlnt
  have hfull : (junk.take 1022) ++ ([d] ++ '\n' :: (line ++ ['\n'])) =
      junk ++ '\n' :: (line ++ ['\n']) := by
    rw [← List.append_assoc, ← hsplit]
  rw [← hfull, framerRun_append, framerRun_append, g1', g2]
  have hov1 : (framerRun (junk.take 1022) [d]).1 = [] := by
    simp [framerRun, framerStep, hdb, hj1len]
  have hov2 : (framerRun (junk.take 1022) [d]).2.1 = [] := by
    simp [framerRun, framerStep, hdb, hj1len]
  rw [hov1, hov2]
  simp [framerRun, framerStep, hline]

/-- A concrete 1023-byte terminator-free junk line. -/
def junkBytes : Str := List.replicate 1023 'x'

/-- A concrete one-byte line following the junk. -/
def lineAfter : Str := ['y']

/-- C7 witness: a two-byte normal input, and the concrete 1023-byte run
of `x` followed by a newline and the line `y`. -/
theorem framer_safe_and_recovers_witness :
    (framerRun [] ['a', '\n']).1.length ≤ 1022 ∧
    (∀ i ∈ (framerRun [] ['a', '\n']).2.2, i ≤ 1023) ∧
    (framerRun [] (junkBytes ++ '\n' :: (lineAfter ++ ['\n']))).2.1 = [lineAfter] := by
  have hj : ∀ ch ∈ junkBytes, ch ≠ '\n' ∧ ch ≠ '\r' := by
    intro ch hch
    rw [List.eq_of_mem_replicate hch]
    decide
  have hl : ∀ ch ∈ lineAfter, ch ≠ '\n' ∧ ch ≠ '\r' := by
    intro ch hch
    simp [lineAfter] at hch
    subst hch
    decide
  have hlen : junkBytes.length = 1023 := by
    unfold junkBytes
    exact List.length_replicate 1023 'x'
  exact framer_safe_and_recovers ['a', '\n'] [] (by decide)
    junkBytes lineAfter hlen hj (by decide) (by decide) hl

end WiThrottle
